import Mathlib

/-!
# main_sum.cpp : array-sum benchmark harness

Shallow embedding of `src/src/main_sum.cpp`.

* `unsigned int` values are natural numbers reduced modulo `2^32` (`wrap32`).
* A statement either completes, lets a `std::runtime_error` escape, or has
  undefined behaviour (`Outcome`).
* `std::cout`, `std::cerr` and the observable steps of a run (iteration bodies
  entered, kernel dispatches, read-backs) are recorded in `World`.
* The collaborators that are not part of `main_sum.cpp` (random generator,
  OpenMP runtime schedule, GPU backend, `gpu::divup`, `timer`) are parameters
  or are modelled from the specification; each such definition says so.
-/

namespace MainSum

/-! ## Machine integers -/

/-- Value of `std::numeric_limits<unsigned int>::max()`. -/
def UINT_MAX : Nat := 4294967295

/-- Largest value of `int`. -/
def INT_MAX : Nat := 2147483647

/-- Arithmetic on `unsigned int` is taken modulo `2^32`. -/
def wrap32 (x : Nat) : Nat := x % 4294967296

/-- The cast `(unsigned int) x` of a signed value. -/
def toUnsigned (x : Int) : Nat := (x % 4294967296).toNat

/-! ## Control flow -/

/-- Result of running a statement from a state of type `σ`: normal completion,
an exception propagating out (with the state reached when it was thrown), or
undefined behaviour (division by zero, out-of-range element access, signed
overflow of a loop counter). -/
inductive Outcome (σ : Type) where
  | done (s : σ)
  | thrown (message : String) (s : σ)
  | undefined
  deriving DecidableEq, Repr

/-- Sequencing: the continuation runs only after normal completion. -/
def Outcome.andThen {σ : Type} (r : Outcome σ) (f : σ → Outcome σ) : Outcome σ :=
  match r with
  | .done s => f s
  | .thrown m s => .thrown m s
  | .undefined => .undefined

/-- The loop `for (int i = i0; i < n; ++i) body`, where `k` is the number of
iterations left (`k = n - i0`).  The counter is an `int`: incrementing it past
`INT_MAX` is undefined behaviour. -/
def forLoop {σ : Type} (body : Nat → σ → Outcome σ) : Nat → Nat → σ → Outcome σ
  | 0, _, s => .done s
  | k + 1, i, s =>
    match body i s with
    | .done s1 => if i + 1 ≤ INT_MAX then forLoop body k (i + 1) s1 else .undefined
    | .thrown m s1 => .thrown m s1
    | .undefined => .undefined

/-! ## Observable state -/

/-- Observable steps of a run. -/
inductive Event where
  /-- the body of iteration `iter` of the benchmark loop tagged `tag` is entered -/
  | iteration (tag : String) (iter : Nat)
  /-- the call `kernel.exec(gpu::WorkSize(workGroupSize, globalWorkSize), as_gpu, n, res_gpu)`,
  with the contents of `res_gpu` at dispatch -/
  | exec (kernelName : String) (workGroupSize globalWorkSize n : Nat) (res_gpu : List Nat)
  /-- the call `res_gpu.readN(&sum, 1)` -/
  | readN (sum : Nat)
  deriving DecidableEq, Repr

/-- Output streams and the trace of observable steps. -/
structure World where
  cout : List String
  cerr : List String
  events : List Event
  deriving DecidableEq, Repr

/-- Modelled from the spec: `timer` (libutils/timer.h) is not part of
main_sum.cpp.  The spec describes it as a start-lap / end-lap measurement over
a sequence of laps; only the number of recorded laps is kept here, elapsed
times being real time. -/
structure timer where
  laps : Nat
  deriving DecidableEq, Repr

/-- The call `t.nextLap()` records one more lap. -/
def timer.nextLap (t : timer) : timer := { laps := t.laps + 1 }

/-- The value `__FILE__` expands to inside main_sum.cpp. -/
def FILE : String := "main_sum.cpp"

/-- The template `raiseFail` (lines 10-16) at `T = unsigned int`: when `a != b`
a line is written to `std::cerr` and `std::runtime_error(message)` is thrown. -/
def raiseFail (a b : Nat) (message filename : String) (line : Nat) (w : World) : Outcome World :=
  if a ≠ b then
    .thrown message
      { w with cerr := w.cerr ++
          [message ++ " But " ++ toString a ++ " != " ++ toString b ++ ", " ++ filename ++ ":"
            ++ toString line] }
  else .done w

/-- The statement `EXPECT_THE_SAME(a, b, message)` written on line `line`. -/
def EXPECT_THE_SAME (a b : Nat) (message : String) (line : Nat) (w : World) : Outcome World :=
  raiseFail a b message FILE line w

/-! ## Input generation (lines 24-31) -/

/-- Modelled from the spec: `FastRandom` (libutils/fast_random.h) is not part
of main_sum.cpp.  It is a deterministic generator: `seed` builds its state and
`next s lo hi` returns a value together with the next state. -/
structure FastRandom (ρ : Type) where
  seed : Nat → ρ
  next : ρ → Nat → Nat → Int × ρ

/-- Variables of the generation loop. -/
structure GenState (ρ : Type) where
  as : List Nat
  r : ρ
  reference_sum : Nat
  deriving DecidableEq, Repr

/-- Body of the generation loop (lines 29-30). -/
def genBody {ρ : Type} (R : FastRandom ρ) (n : Nat) (i : Nat) (s : GenState ρ) :
    Outcome (GenState ρ) :=
  if n = 0 then .undefined
  else
    let v := R.next s.r 0 (UINT_MAX / n)
    if i < s.as.length then
      let as1 := s.as.set i (toUnsigned v.1)
      match as1[i]? with
      | some x => .done { as := as1, r := v.2, reference_sum := wrap32 (s.reference_sum + x) }
      | none => .undefined
    else .undefined

/-- Lines 24-31: `as` is a vector of `n` zeros, `r` is seeded with 42, and the
loop fills `as` while accumulating `reference_sum`. -/
def generate {ρ : Type} (R : FastRandom ρ) (n : Nat) : Outcome (GenState ρ) :=
  forLoop (genBody R n) n 0 { as := List.replicate n 0, r := R.seed 42, reference_sum := 0 }

/-! ## CPU baselines (lines 33-60) -/

/-- The statement `sum += as[i]`. -/
def sumBody (as : List Nat) (i : Nat) (sum : Nat) : Outcome Nat :=
  match as[i]? with
  | some x => .done (wrap32 (sum + x))
  | none => .undefined

/-- Lines 36-39: `sum = 0; for (int i = 0; i < n; ++i) sum += as[i];`. -/
def serialSum (as : List Nat) (n : Nat) : Outcome Nat :=
  forLoop (sumBody as) n 0 0

/-- One OpenMP thread: it folds the indices of its chunk, in order, into its
private copy of `sum`. -/
def threadPartial (as : List Nat) : List Nat → Nat → Outcome Nat
  | [], p => .done p
  | i :: rest, p =>
    match sumBody as i p with
    | .done p1 => threadPartial as rest p1
    | .thrown m s => .thrown m s
    | .undefined => .undefined

/-- The clause `reduction(+:sum)`: every thread starts its private copy at 0, and
the private copies are added to the original `sum` one after the other, in the
order in which the chunks are listed. -/
def ompReduce (as : List Nat) : List (List Nat) → Nat → Outcome Nat
  | [], sum => .done sum
  | chunk :: rest, sum =>
    match threadPartial as chunk 0 with
    | .done p => ompReduce as rest (wrap32 (sum + p))
    | .thrown m s => .thrown m s
    | .undefined => .undefined

/-- Lines 50-54: the OpenMP loop under a schedule.  A schedule lists, in the
order in which the partial sums are combined, the indices handled by each
thread; which schedule is used is up to the OpenMP runtime. -/
def ompSum (as : List Nat) (chunks : List (List Nat)) : Outcome Nat :=
  ompReduce as chunks 0

/-- A grouping of the threads for the final combination: the private copies
may be added pairwise in any bracketing before reaching the original `sum`. -/
inductive Combine where
  | thread (chunk : List Nat)
  | join (l r : Combine)
  deriving DecidableEq, Repr

/-- The chunks of the threads of a grouping, left to right. -/
def Combine.chunks : Combine → List (List Nat)
  | .thread chunk => [chunk]
  | .join l r => l.chunks ++ r.chunks

/-- The combined value of a grouping: a thread contributes its private copy,
two groups are combined with wrapping `+`. -/
def Combine.value (as : List Nat) : Combine → Outcome Nat
  | .thread chunk => threadPartial as chunk 0
  | .join l r =>
    match l.value as with
    | .done a =>
      match r.value as with
      | .done b => .done (wrap32 (a + b))
      | .thrown m s => .thrown m s
      | .undefined => .undefined
    | .thrown m s => .thrown m s
    | .undefined => .undefined

/-- Lines 50-54 when the private copies are combined along a grouping and the
result is added to the original `sum = 0`. -/
def ompSumGrouped (as : List Nat) (t : Combine) : Outcome Nat :=
  match t.value as with
  | .done p => .done (wrap32 (0 + p))
  | .thrown m s => .thrown m s
  | .undefined => .undefined

/-- A schedule is valid for a loop over `0..n-1` when it hands out every index
exactly once. -/
def ValidSchedule (n : Nat) (chunks : List (List Nat)) : Prop :=
  List.Perm chunks.flatten (List.range n)

instance (n : Nat) (chunks : List (List Nat)) : Decidable (ValidSchedule n chunks) := by
  unfold ValidSchedule; infer_instance

/-! ## Benchmark loops -/

/-- The constant `benchmarkingIters`. -/
def benchmarkingIters : Nat := 10

/-- The part of an iteration that produces `sum`, without events. -/
def quiet (r : Outcome Nat) : Outcome (Nat × List Event) :=
  match r with
  | .done sum => .done (sum, [])
  | .thrown m sum => .thrown m (sum, [])
  | .undefined => .undefined

/-- One iteration of a benchmark loop: `compute iter` produces `sum` (and the
events of doing so), then `EXPECT_THE_SAME(reference_sum, sum, message)` and
`t.nextLap()`. -/
def benchBody (tag : String) (compute : Nat → Outcome (Nat × List Event))
    (reference_sum : Nat) (message : String) (line : Nat)
    (iter : Nat) (s : timer × World) : Outcome (timer × World) :=
  let w0 : World := { s.2 with events := s.2.events ++ [Event.iteration tag iter] }
  match compute iter with
  | .done (sum, evs) =>
    let w1 : World := { w0 with events := w0.events ++ evs }
    match EXPECT_THE_SAME reference_sum sum message line w1 with
    | .done w2 => .done (s.1.nextLap, w2)
    | .thrown m w2 => .thrown m (s.1, w2)
    | .undefined => .undefined
  | .thrown m (_, evs) => .thrown m (s.1, { w0 with events := w0.events ++ evs })
  | .undefined => .undefined

/-- The loop `timer t; for (int iter = 0; iter < benchmarkingIters; ++iter) ...`. -/
def benchIters (tag : String) (compute : Nat → Outcome (Nat × List Event))
    (reference_sum : Nat) (message : String) (line : Nat) (w : World) :
    Outcome (timer × World) :=
  forLoop (benchBody tag compute reference_sum message line) benchmarkingIters 0
    ({ laps := 0 }, w)

/-- The two lines a strategy reports: timing and throughput.  The figures are
floating-point functions of elapsed time and are left out. -/
def resultLines (tag : String) : List String :=
  [tag ++ "+-" ++ " s", tag ++ " millions/s"]

/-- A benchmark block: the loop followed by the two result lines. -/
def benchmark (tag : String) (compute : Nat → Outcome (Nat × List Event))
    (reference_sum : Nat) (message : String) (line : Nat) (w : World) : Outcome World :=
  match benchIters tag compute reference_sum message line w with
  | .done s => .done { s.2 with cout := s.2.cout ++ resultLines tag }
  | .thrown m s => .thrown m s.2
  | .undefined => .undefined

/-- What distinguishes one benchmark block from another: the tag it reports
under, how an iteration produces `sum`, the message of its check and the line
the check is written on. -/
structure Bench where
  tag : String
  compute : Nat → Outcome (Nat × List Event)
  message : String
  line : Nat

/-- Running a benchmark block against `reference_sum`. -/
def Bench.run (b : Bench) (reference_sum : Nat) (w : World) : Outcome World :=
  benchmark b.tag b.compute reference_sum b.message b.line w

/-- Lines 33-45: the serial CPU baseline. -/
def cpuBench (as : List Nat) (n : Nat) : Bench :=
  { tag := "CPU:     ",
    compute := fun _ => quiet (serialSum as n),
    message := "CPU result should be consistent!",
    line := 40 }

/-- Lines 47-60: the OpenMP baseline; `sched iter` is the schedule the runtime
uses in iteration `iter`. -/
def ompBench (as : List Nat) (sched : Nat → List (List Nat)) : Bench :=
  { tag := "CPU OMP: ",
    compute := fun iter => quiet (ompSum as (sched iter)),
    message := "CPU OpenMP result should be consistent!",
    line := 55 }

/-! ## GPU dispatch (lines 62-111) -/

/-- Modelled from the spec: the compute backend (libgpu, the OpenCL kernels of
cl/sum.cl) is not part of main_sum.cpp.  `ι` stands for whatever a dispatch
depends on besides its arguments (interleaving of work items, contents of
fresh memory).  `fresh x j` is the unspecified content of element `j` of a
newly created buffer; `exec x kernelName VALUES_PER_WORKITEM WORKGROUP_SIZE
workGroupSize globalWorkSize as_gpu n res_gpu` is the content of `res_gpu`
after the kernel has run. -/
structure Backend (ι : Type) where
  fresh : ι → Nat → Nat
  exec : ι → String → Nat → Nat → Nat → Nat → List Nat → Nat → List Nat → List Nat

/-- Modelled from the spec: `gpu::divup` (libgpu) is not part of main_sum.cpp;
the spec partitions the array into `ceil(N / valuesPerWorkItem)` work items. -/
def divup (num denom : Nat) : Nat := (num + denom - 1) / denom

/-- The call `gpu_mem_32u::createN(count)`: a buffer of `count` elements with
unspecified contents. -/
def createN {ι : Type} (B : Backend ι) (x : ι) (count : Nat) : List Nat :=
  (List.range count).map (B.fresh x)

/-- The call `buf.writeN(src, count)`: the first `count` elements are overwritten. -/
def writeN (buf src : List Nat) (count : Nat) : List Nat :=
  src.take count ++ buf.drop count

/-- Lines 81-85. -/
def globalWorkSize (n valuesPerWorkItem : Nat) : Nat :=
  if valuesPerWorkItem ≠ 0 then divup n valuesPerWorkItem else n

/-- Lines 89-96: a fresh one-element buffer is created and zeroed, the kernel
is dispatched, and `sum` is read back. -/
def gpuIteration {ι : Type} (B : Backend ι) (x : ι) (kernelName : String)
    (workGroupSize valuesPerWorkItem gws : Nat) (as_gpu : List Nat) (n : Nat) :
    Outcome (Nat × List Event) :=
  let res_gpu := createN B x 1
  let res_gpu := writeN res_gpu [0] 1
  let out := B.exec x kernelName valuesPerWorkItem workGroupSize workGroupSize gws as_gpu n res_gpu
  match out[0]? with
  | some sum =>
    .done (sum, [Event.exec kernelName workGroupSize gws n res_gpu, Event.readN sum])
  | none => .undefined

/-- The tag under which a kernel is reported. -/
def gpuTag (kernelName : String) : String := "GPU " ++ kernelName ++ ": "

/-- The lambda `benchmarkKernel` (lines 70-104).  Its fourth parameter
`workgroupSize` is not used by the body.  `gpuSched kernelName iter` is what
the dispatch of iteration `iter` depends on besides its arguments. -/
def benchmarkKernel {ι : Type} (B : Backend ι) (gpuSched : String → Nat → ι)
    (as : List Nat) (n : Nat)
    (kernelName : String) (workGroupSize valuesPerWorkItem _workgroupSize : Nat) : Bench :=
  let as_gpu := writeN (createN B (gpuSched kernelName 0) n) as n
  { tag := gpuTag kernelName,
    compute := fun iter => gpuIteration B (gpuSched kernelName iter) kernelName workGroupSize
      valuesPerWorkItem (globalWorkSize n valuesPerWorkItem) as_gpu n,
    message := kernelName ++ " result should be consistent!",
    line := 98 }

/-- Arguments of one `benchmarkKernel(...)` call. -/
structure KernelCall where
  kernelName : String
  workGroupSize : Nat
  valuesPerWorkItem : Nat
  workgroupSize : Nat
  deriving DecidableEq, Repr

/-- Lines 106-110, in order. -/
def kernelCalls : List KernelCall :=
  [ ⟨"sum_global_atomic", 128, 0, 0⟩,
    ⟨"sum_loop", 128, 128, 0⟩,
    ⟨"sum_loop_coalesced", 128, 128, 0⟩,
    ⟨"sum_local_mem", 128, 0, 128⟩,
    ⟨"sum_local_mem_and_tree", 128, 0, 128⟩ ]

/-- The benchmark blocks of `main` in program order: serial, OpenMP, then the
five kernels. -/
def benches {ι : Type} (B : Backend ι) (gpuSched : String → Nat → ι)
    (sched : Nat → List (List Nat)) (as : List Nat) (n : Nat) : List Bench :=
  [cpuBench as n, ompBench as sched] ++
    kernelCalls.map (fun c =>
      benchmarkKernel B gpuSched as n c.kernelName c.workGroupSize c.valuesPerWorkItem
        c.workgroupSize)

/-- Consecutive benchmark blocks: nothing in `main` catches the exception, so a
block only starts after the previous one has completed normally. -/
def runAll (reference_sum : Nat) : List Bench → World → Outcome World
  | [], w => .done w
  | b :: rest, w => (b.run reference_sum w).andThen (runAll reference_sum rest)

/-- The function `main` with the array length `n` left open.  Device selection
and kernel compilation are assumed to succeed. -/
def mainWith {ι ρ : Type} (R : FastRandom ρ) (sched : Nat → List (List Nat))
    (B : Backend ι) (gpuSched : String → Nat → ι) (n : Nat) (w : World) : Outcome World :=
  match generate R n with
  | .done g => runAll g.reference_sum (benches B gpuSched sched g.as n) w
  | .thrown m _ => .thrown m w
  | .undefined => .undefined

/-- The array length of the program: `100 * 1000 * 1000`. -/
def programN : Nat := 100 * 1000 * 1000

/-- The function `main` (lines 21-112). -/
def main {ι ρ : Type} (R : FastRandom ρ) (sched : Nat → List (List Nat))
    (B : Backend ι) (gpuSched : String → Nat → ι) (w : World) : Outcome World :=
  mainWith R sched B gpuSched programN w

/-! ## Describing runs -/

/-- The `sum` an iteration produces, when it produces one. -/
def sumOf (r : Outcome (Nat × List Event)) : Option Nat :=
  match r with
  | .done s => some s.1
  | .thrown _ _ => none
  | .undefined => none

/-- The events of producing `sum`. -/
def eventsOf (r : Outcome (Nat × List Event)) : List Event :=
  match r with
  | .done s => s.2
  | .thrown _ s => s.2
  | .undefined => []

/-- The trace of iteration `j` of a block. -/
def iterEvents (b : Bench) (j : Nat) : List Event :=
  Event.iteration b.tag j :: eventsOf (b.compute j)

/-- The line `raiseFail` writes to `std::cerr` for block `b`. -/
def cerrLine (b : Bench) (reference_sum sum : Nat) : String :=
  b.message ++ " But " ++ toString reference_sum ++ " != " ++ toString sum ++ ", " ++ FILE ++ ":"
    ++ toString b.line

/-- The world after block `b` has completed all its iterations from `w`. -/
def passedWorld (b : Bench) (w : World) : World :=
  { cout := w.cout ++ resultLines b.tag,
    cerr := w.cerr,
    events := w.events ++ (List.range benchmarkingIters).flatMap (iterEvents b) }

/-- The world after the blocks `bs` have completed one after the other. -/
def afterPassed (bs : List Bench) (w : World) : World :=
  bs.foldl (fun w b => passedWorld b w) w

/-- The world in which block `b`, started from `w`, fails in iteration `i` with `sum`. -/
def failedWorld (b : Bench) (reference_sum i sum : Nat) (w : World) : World :=
  { cout := w.cout,
    cerr := w.cerr ++ [cerrLine b reference_sum sum],
    events := w.events ++ (List.range (i + 1)).flatMap (iterEvents b) }

/-- Block `b` passes: each of its iterations produces `reference_sum`. -/
def Passes (b : Bench) (reference_sum : Nat) : Prop :=
  ∀ j, j < benchmarkingIters → sumOf (b.compute j) = some reference_sum

/-- Block `b` fails first in iteration `i`, where it produces `sum`. -/
def FailsAt (b : Bench) (reference_sum i sum : Nat) : Prop :=
  i < benchmarkingIters ∧ (∀ j, j < i → sumOf (b.compute j) = some reference_sum) ∧
    sumOf (b.compute i) = some sum ∧ sum ≠ reference_sum

/-- Whether an event is a kernel dispatch. -/
def Event.isExec : Event → Bool
  | .exec _ _ _ _ _ => true
  | _ => false

instance (b : Bench) (reference_sum : Nat) : Decidable (Passes b reference_sum) := by
  unfold Passes; infer_instance

instance (b : Bench) (reference_sum i sum : Nat) : Decidable (FailsAt b reference_sum i sum) := by
  unfold FailsAt; infer_instance

/-! ## Concrete collaborators for examples -/

/-- A generator that hands out the values of a fixed list, one per call. -/
def replay (vals : List Int) : FastRandom (List Int) :=
  { seed := fun _ => vals, next := fun s _ _ => (s.headD 0, s.tail) }

/-- A generator that always returns 1. -/
def constRandom : FastRandom Unit :=
  { seed := fun _ => (), next := fun _ _ _ => (1, ()) }

/-- The schedule that gives the whole index range to a single thread. -/
def oneThread (n : Nat) : Nat → List (List Nat) := fun _ => [List.range n]

/-- A backend every kernel of which adds the sum of the first `n` elements to
the accumulator. -/
def exactBackend : Backend Unit :=
  { fresh := fun _ _ => 7,
    exec := fun _ _ _ _ _ _ as_gpu n res_gpu => [wrap32 (res_gpu.headD 0 + (as_gpu.take n).sum)] }

/-- A backend every kernel of which leaves one more than the sum of the array
in the accumulator. -/
def offByOneBackend : Backend Unit :=
  { fresh := fun _ _ => 7,
    exec := fun _ _ _ _ _ _ as_gpu _ _ => [wrap32 (as_gpu.sum + 1)] }

/-- A backend whose kernel `sum_loop` leaves 1 in the accumulator, the other
kernels being exact. -/
def brokenLoopBackend : Backend Unit :=
  { fresh := fun _ _ => 7,
    exec := fun _ kernelName _ _ _ _ as_gpu n res_gpu =>
      if kernelName = "sum_loop" then [1]
      else [wrap32 (res_gpu.headD 0 + (as_gpu.take n).sum)] }


/-- A backend whose kernels are exact in the dispatches numbered below 3 and
leave 0 in the accumulator afterwards (the dispatch number is what `ι` carries). -/
def racyBackend : Backend Nat :=
  { fresh := fun _ _ => 7,
    exec := fun x _ _ _ _ _ as_gpu n res_gpu =>
      if x < 3 then [wrap32 (res_gpu.headD 0 + (as_gpu.take n).sum)] else [0] }

/-- The kernel block `sum_loop` on the array `[1, 2]` over `racyBackend`. -/
def racyLoop : Bench :=
  benchmarkKernel racyBackend (fun _ iter => iter) [1, 2] 2 "sum_loop" 128 128 0

/-! ## Auxiliary facts -/

theorem wrap32_add_left (a b : Nat) : wrap32 (wrap32 a + b) = wrap32 (a + b) := by
  unfold wrap32; omega

theorem wrap32_add_right (a b : Nat) : wrap32 (a + wrap32 b) = wrap32 (a + b) := by
  unfold wrap32; omega

theorem wrap32_of_le {a : Nat} (h : a ≤ UINT_MAX) : wrap32 a = a := by
  unfold wrap32 UINT_MAX at *; omega

theorem toUnsigned_lt (x : Int) : toUnsigned x < 4294967296 := by
  unfold toUnsigned; omega

/-- The summation loop from index `i`, with `k` iterations left, adds the
elements `as[i], ..., as[i+k-1]`. -/
theorem sumLoop_spec (as : List Nat) :
    ∀ (k i a : Nat), i + k ≤ as.length → i + k ≤ INT_MAX →
      forLoop (sumBody as) k i (wrap32 a) = .done (wrap32 (a + ((as.drop i).take k).sum)) := by
  intro k
  induction k with
  | zero => intro i a _ _; simp [forLoop]
  | succ k ih =>
    intro i a hlen hmax
    have hi : i < as.length := by omega
    have hstep : i + 1 ≤ INT_MAX := by omega
    have hdrop : as.drop i = as[i] :: as.drop (i + 1) := List.drop_eq_getElem_cons hi
    simp only [forLoop, sumBody, List.getElem?_eq_getElem hi, hstep, if_true, wrap32_add_left]
    rw [ih (i + 1) (a + as[i]) (by omega) (by omega), hdrop, List.take_succ_cons, List.sum_cons,
      Nat.add_assoc]

theorem serialSum_spec (as : List Nat) (h : as.length ≤ INT_MAX) :
    serialSum as as.length = .done (wrap32 as.sum) := by
  have := sumLoop_spec as as.length 0 0 (by omega) (by omega)
  simpa [serialSum, wrap32] using this

/-- The generation loop completes when `n` fits the `int` counter. -/
theorem genLoop_total {ρ : Type} (R : FastRandom ρ) (n : Nat) (hn : n ≤ INT_MAX) :
    ∀ (k i : Nat) (s : GenState ρ), s.as.length = n → i + k ≤ n →
      ∃ s1, forLoop (genBody R n) k i s = .done s1 := by
  intro k
  induction k with
  | zero => intro i s _ _; exact ⟨s, rfl⟩
  | succ k ih =>
    intro i s hlen hk
    have hi : i < s.as.length := by omega
    have hn0 : n ≠ 0 := by omega
    have hstep : i + 1 ≤ INT_MAX := by omega
    have hset : (s.as.set i (toUnsigned (R.next s.r 0 (UINT_MAX / n)).1))[i]? =
        some (toUnsigned (R.next s.r 0 (UINT_MAX / n)).1) := by
      simp [List.getElem?_set, hi]
    simp only [forLoop, genBody, hn0, if_false, hi, if_true, hset, hstep]
    exact ih (i + 1) _ (by simp [hlen]) (by omega)

/-- What the generation loop has done when it completes: the array keeps its
length, the entries below `i` are untouched, and `reference_sum` has grown by
the (32-bit) entries written at `i, ..., i+k-1`. -/
theorem genLoop_spec {ρ : Type} (R : FastRandom ρ) (n : Nat) :
    ∀ (k i : Nat) (s s1 : GenState ρ) (a : Nat), s.as.length = n →
      s.reference_sum = wrap32 a → forLoop (genBody R n) k i s = .done s1 →
      s1.as.length = n ∧ (∀ j, j < i → s1.as[j]? = s.as[j]?) ∧
      s1.reference_sum = wrap32 (a + ((s1.as.drop i).take k).sum) ∧
      (∀ x ∈ (s1.as.drop i).take k, x < 4294967296) := by
  intro k
  induction k with
  | zero =>
    intro i s s1 a hlen href h
    simp only [forLoop, Outcome.done.injEq] at h
    subst h
    simp [hlen, href]
  | succ k ih =>
    intro i s s1 a hlen href h
    simp only [forLoop, genBody] at h
    by_cases hn0 : n = 0
    · simp [hn0] at h
    by_cases hi : i < s.as.length
    · have hset : (s.as.set i (toUnsigned (R.next s.r 0 (UINT_MAX / n)).1))[i]? =
          some (toUnsigned (R.next s.r 0 (UINT_MAX / n)).1) := by
        simp [List.getElem?_set, hi]
      simp only [hn0, if_false, hi, if_true, hset] at h
      by_cases hstep : i + 1 ≤ INT_MAX
      · simp only [hstep, if_true] at h
        obtain ⟨h1, h2, h3, h4⟩ := ih (i + 1) _ s1 (a + toUnsigned (R.next s.r 0 (UINT_MAX / n)).1)
          (by simp [hlen]) (by simp [href, wrap32_add_left]) h
        have hi1 : i < s1.as.length := by omega
        have hval : s1.as[i] = toUnsigned (R.next s.r 0 (UINT_MAX / n)).1 := by
          have := h2 i (by omega)
          simp only [hset] at this
          rw [List.getElem?_eq_getElem hi1] at this
          exact Option.some.inj this
        have hdrop : s1.as.drop i = s1.as[i] :: s1.as.drop (i + 1) :=
          List.drop_eq_getElem_cons hi1
        refine ⟨h1, ?_, ?_, ?_⟩
        · intro j hj
          rw [h2 j (by omega)]
          simp only [List.getElem?_set]
          have : i ≠ j := by omega
          simp [this]
        · rw [h3, hdrop, List.take_succ_cons, List.sum_cons, hval, Nat.add_assoc]
        · intro x hx
          rw [hdrop, List.take_succ_cons, List.mem_cons] at hx
          rcases hx with hx | hx
          · rw [hx, hval]; exact toUnsigned_lt _
          · exact h4 x hx
      · simp [hstep] at h
    · simp [hn0, hi] at h

/-- The generation loop completes for every `n` that fits the `int` counter. -/
theorem generate_total {ρ : Type} (R : FastRandom ρ) (n : Nat) (hn : n ≤ INT_MAX) :
    ∃ g, generate R n = .done g :=
  genLoop_total R n hn n 0 _ (by simp) (by omega)

/-- On completion `as` has `n` entries below `2^32` and `reference_sum` is
their sum modulo `2^32`. -/
theorem generate_spec {ρ : Type} (R : FastRandom ρ) (n : Nat) (g : GenState ρ)
    (h : generate R n = .done g) :
    g.as.length = n ∧ g.reference_sum = wrap32 g.as.sum ∧ ∀ x ∈ g.as, x < 4294967296 := by
  obtain ⟨h1, _, h3, h4⟩ := genLoop_spec R n n 0 _ g 0 (by simp) (by simp [wrap32]) h
  have htake : (g.as.drop 0).take n = g.as := by
    rw [List.drop_zero, ← h1, List.take_length]
  rw [htake] at h3 h4
  exact ⟨h1, by simpa using h3, h4⟩

theorem threadPartial_spec (as : List Nat) :
    ∀ (chunk : List Nat) (a : Nat), (∀ i ∈ chunk, i < as.length) →
      threadPartial as chunk (wrap32 a) =
        .done (wrap32 (a + (chunk.map (fun i => as.getD i 0)).sum)) := by
  intro chunk
  induction chunk with
  | nil => intro a _; simp [threadPartial]
  | cons i rest ih =>
    intro a h
    have hi : i < as.length := h i (List.mem_cons_self _ _)
    simp only [threadPartial, sumBody, List.getElem?_eq_getElem hi, wrap32_add_left]
    rw [ih (a + as[i]) (fun j hj => h j (List.mem_cons_of_mem _ hj))]
    simp [List.getD_eq_getElem?_getD, List.getElem?_eq_getElem hi, Nat.add_assoc]

theorem ompReduce_spec (as : List Nat) :
    ∀ (chunks : List (List Nat)) (a : Nat), (∀ c ∈ chunks, ∀ i ∈ c, i < as.length) →
      ompReduce as chunks (wrap32 a) =
        .done (wrap32 (a + (chunks.flatten.map (fun i => as.getD i 0)).sum)) := by
  intro chunks
  induction chunks with
  | nil => intro a _; simp [ompReduce]
  | cons c rest ih =>
    intro a h
    have hc := threadPartial_spec as c 0 (h c (List.mem_cons_self _ _))
    have h0 : wrap32 0 = 0 := rfl
    rw [h0] at hc
    simp only [ompReduce, hc, wrap32_add_right, wrap32_add_left, Nat.zero_add]
    rw [ih _ (fun c1 hc1 => h c1 (List.mem_cons_of_mem _ hc1)), List.flatten_cons,
      List.map_append, List.sum_append, Nat.add_assoc]

theorem map_getD_range (as : List Nat) :
    (List.range as.length).map (fun i => as.getD i 0) = as := by
  apply List.ext_getElem
  · simp
  · intro i h1 h2
    simp [List.getD_eq_getElem?_getD, List.getElem?_eq_getElem h2]

/-- Under a valid schedule the OpenMP reduction yields the array sum modulo `2^32`. -/
theorem ompSum_spec (as : List Nat) (chunks : List (List Nat))
    (hv : ValidSchedule as.length chunks) : ompSum as chunks = .done (wrap32 as.sum) := by
  have hmem : ∀ c ∈ chunks, ∀ i ∈ c, i < as.length := by
    intro c hc i hi
    have : i ∈ chunks.flatten := List.mem_flatten.2 ⟨c, hc, hi⟩
    exact List.mem_range.1 (hv.mem_iff.1 this)
  have h0 : wrap32 0 = 0 := rfl
  have h := ompReduce_spec as chunks 0 hmem
  have hsum : (chunks.flatten.map (fun i => as.getD i 0)).sum = as.sum := by
    rw [(hv.map _).sum_eq, map_getD_range]
  rw [h0, hsum, Nat.zero_add] at h
  exact h

theorem combine_value_spec (as : List Nat) :
    ∀ t : Combine, (∀ c ∈ t.chunks, ∀ i ∈ c, i < as.length) →
      t.value as = .done (wrap32 (t.chunks.flatten.map (fun i => as.getD i 0)).sum) := by
  intro t
  induction t with
  | thread chunk =>
    intro h
    have h0 : wrap32 0 = 0 := rfl
    have := threadPartial_spec as chunk 0 (h chunk (by simp [Combine.chunks]))
    rw [h0, Nat.zero_add] at this
    simpa [Combine.value, Combine.chunks] using this
  | join l r ihl ihr =>
    intro h
    have hl := ihl (fun c hc i hi => h c (by simp [Combine.chunks, hc]) i hi)
    have hr := ihr (fun c hc i hi => h c (by simp [Combine.chunks, hc]) i hi)
    simp only [Combine.value, hl, hr, Combine.chunks, List.flatten_append, List.map_append,
      List.sum_append, wrap32_add_left, wrap32_add_right]

/-- Under a valid schedule the reduction along any grouping yields the array
sum modulo `2^32`. -/
theorem ompSumGrouped_spec (as : List Nat) (t : Combine)
    (hv : ValidSchedule as.length t.chunks) : ompSumGrouped as t = .done (wrap32 as.sum) := by
  have hmem : ∀ c ∈ t.chunks, ∀ i ∈ c, i < as.length := by
    intro c hc i hi
    have : i ∈ t.chunks.flatten := List.mem_flatten.2 ⟨c, hc, hi⟩
    exact List.mem_range.1 (hv.mem_iff.1 this)
  have hsum : (t.chunks.flatten.map (fun i => as.getD i 0)).sum = as.sum := by
    rw [(hv.map _).sum_eq, map_getD_range]
  have hidem : wrap32 (wrap32 as.sum) = wrap32 as.sum := by unfold wrap32; omega
  simp only [ompSumGrouped, combine_value_spec as t hmem, hsum, Nat.zero_add, hidem]

theorem eq_done_of_sumOf {r : Outcome (Nat × List Event)} {v : Nat} (h : sumOf r = some v) :
    r = .done (v, eventsOf r) := by
  cases r with
  | done s => simp only [sumOf, Option.some.injEq] at h; subst h; rfl
  | thrown m s => simp [sumOf] at h
  | undefined => simp [sumOf] at h

/-- An iteration whose sum agrees with `reference_sum` records a lap. -/
theorem benchBody_pass (b : Bench) (ref j : Nat) (t : timer) (w : World)
    (h : sumOf (b.compute j) = some ref) :
    benchBody b.tag b.compute ref b.message b.line j (t, w) =
      .done (t.nextLap, { w with events := w.events ++ iterEvents b j }) := by
  have hc := eq_done_of_sumOf h
  unfold benchBody
  rw [hc]
  simp [EXPECT_THE_SAME, raiseFail, iterEvents, eventsOf]

/-- An iteration whose sum differs from `reference_sum` throws before the lap
is recorded. -/
theorem benchBody_fail (b : Bench) (ref j sum : Nat) (t : timer) (w : World)
    (h : sumOf (b.compute j) = some sum) (hne : sum ≠ ref) :
    benchBody b.tag b.compute ref b.message b.line j (t, w) =
      .thrown b.message (t, { cout := w.cout, cerr := w.cerr ++ [cerrLine b ref sum],
                              events := w.events ++ iterEvents b j }) := by
  have hc := eq_done_of_sumOf h
  have hne1 : ref ≠ sum := fun e => hne e.symm
  unfold benchBody
  rw [hc]
  simp [EXPECT_THE_SAME, raiseFail, iterEvents, eventsOf, hne1, cerrLine]

theorem benchLoop_pass (b : Bench) (ref : Nat) :
    ∀ (k i0 : Nat) (t : timer) (w : World),
      (∀ j, i0 ≤ j → j < i0 + k → sumOf (b.compute j) = some ref) → i0 + k ≤ INT_MAX →
      forLoop (benchBody b.tag b.compute ref b.message b.line) k i0 (t, w) =
        .done ({ laps := t.laps + k },
               { w with events := w.events ++ (List.range' i0 k).flatMap (iterEvents b) }) := by
  intro k
  induction k with
  | zero => intro i0 t w _ _; simp [forLoop]
  | succ k ih =>
    intro i0 t w h hmax
    have hstep : i0 + 1 ≤ INT_MAX := by omega
    simp only [forLoop, benchBody_pass b ref i0 t w (h i0 (by omega) (by omega)), hstep, if_true]
    rw [ih (i0 + 1) _ _ (fun j h1 h2 => h j (by omega) (by omega)) (by omega)]
    simp [timer.nextLap, List.range'_succ, Nat.add_assoc, Nat.add_comm 1 k]

theorem benchLoop_fail (b : Bench) (ref sum : Nat) (hne : sum ≠ ref) :
    ∀ (a k i0 : Nat) (t : timer) (w : World), a < k →
      (∀ j, i0 ≤ j → j < i0 + a → sumOf (b.compute j) = some ref) →
      sumOf (b.compute (i0 + a)) = some sum → i0 + k ≤ INT_MAX →
      forLoop (benchBody b.tag b.compute ref b.message b.line) k i0 (t, w) =
        .thrown b.message ({ laps := t.laps + a },
          { cout := w.cout, cerr := w.cerr ++ [cerrLine b ref sum],
            events := w.events ++ (List.range' i0 (a + 1)).flatMap (iterEvents b) }) := by
  intro a
  induction a with
  | zero =>
    intro k i0 t w hk _ hf _
    obtain ⟨k1, rfl⟩ : ∃ k1, k = k1 + 1 := ⟨k - 1, by omega⟩
    simp only [forLoop, benchBody_fail b ref i0 sum t w hf hne]
    simp [List.range'_succ]
  | succ a ih =>
    intro k i0 t w hk hp hf hmax
    obtain ⟨k1, rfl⟩ : ∃ k1, k = k1 + 1 := ⟨k - 1, by omega⟩
    have hstep : i0 + 1 ≤ INT_MAX := by omega
    simp only [forLoop, benchBody_pass b ref i0 t w (hp i0 (by omega) (by omega)), hstep, if_true]
    rw [ih k1 (i0 + 1) _ _ (by omega) (fun j h1 h2 => hp j (by omega) (by omega))
      (by rw [← hf]; congr 2; omega) (by omega)]
    simp [timer.nextLap, List.range'_succ (s := i0) (n := a + 1), Nat.add_assoc, Nat.add_comm 1 a]

/-- A passing block completes with ten laps and reports its two lines. -/
theorem benchIters_pass (b : Bench) (ref : Nat) (w : World) (h : Passes b ref) :
    benchIters b.tag b.compute ref b.message b.line w =
      .done ({ laps := benchmarkingIters },
             { w with events := w.events ++ (List.range benchmarkingIters).flatMap (iterEvents b) }) := by
  have := benchLoop_pass b ref benchmarkingIters 0 { laps := 0 } w
    (fun j _ h2 => h j (by omega)) (by decide)
  simpa [benchIters, List.range_eq_range'] using this

theorem run_pass (b : Bench) (ref : Nat) (w : World) (h : Passes b ref) :
    b.run ref w = .done (passedWorld b w) := by
  simp [Bench.run, benchmark, benchIters_pass b ref w h, passedWorld]

theorem benchIters_fail (b : Bench) (ref i sum : Nat) (w : World) (h : FailsAt b ref i sum) :
    benchIters b.tag b.compute ref b.message b.line w =
      .thrown b.message ({ laps := i }, failedWorld b ref i sum w) := by
  obtain ⟨hi, hp, hf, hne⟩ := h
  have := benchLoop_fail b ref sum hne i benchmarkingIters 0 { laps := 0 } w hi
    (fun j _ h2 => hp j (by omega)) (by simpa using hf) (by decide)
  simpa [benchIters, List.range_eq_range', failedWorld] using this

theorem run_fail (b : Bench) (ref i sum : Nat) (w : World) (h : FailsAt b ref i sum) :
    b.run ref w = .thrown b.message (failedWorld b ref i sum w) := by
  simp [Bench.run, benchmark, benchIters_fail b ref i sum w h]

/-- The world after the blocks `bs` have all passed, one after the other. -/
theorem afterPassed_cout (bs : List Bench) :
    ∀ w : World, (afterPassed bs w).cout =
      w.cout ++ bs.flatMap (fun b => resultLines b.tag) := by
  induction bs with
  | nil => intro w; simp [afterPassed]
  | cons b rest ih => intro w; rw [afterPassed, List.foldl_cons, ← afterPassed, ih]; simp [passedWorld]

theorem afterPassed_cerr (bs : List Bench) :
    ∀ w : World, (afterPassed bs w).cerr = w.cerr := by
  induction bs with
  | nil => intro w; simp [afterPassed]
  | cons b rest ih => intro w; rw [afterPassed, List.foldl_cons, ← afterPassed, ih]; simp [passedWorld]

theorem afterPassed_events (bs : List Bench) :
    ∀ w : World, (afterPassed bs w).events =
      w.events ++ bs.flatMap (fun b => (List.range benchmarkingIters).flatMap (iterEvents b)) := by
  induction bs with
  | nil => intro w; simp [afterPassed]
  | cons b rest ih => intro w; rw [afterPassed, List.foldl_cons, ← afterPassed, ih]; simp [passedWorld]

theorem runAll_pass (ref : Nat) (bs : List Bench) :
    ∀ w : World, (∀ b ∈ bs, Passes b ref) →
      runAll ref bs w = .done (afterPassed bs w) := by
  induction bs with
  | nil => intro w _; rfl
  | cons b rest ih =>
    intro w h
    simp only [runAll, run_pass b ref w (h b (List.mem_cons_self _ _)), Outcome.andThen,
      afterPassed, List.foldl_cons]
    exact ih _ (fun c hc => h c (List.mem_cons_of_mem _ hc))

/-- When the blocks of `pre` pass and the next block fails, the exception
leaves `runAll`: the blocks after it are never started. -/
theorem runAll_fail (ref i sum : Nat) (b : Bench) (post : List Bench) (hf : FailsAt b ref i sum)
    (pre : List Bench) :
    ∀ w : World, (∀ p ∈ pre, Passes p ref) →
      runAll ref (pre ++ b :: post) w =
        .thrown b.message (failedWorld b ref i sum (afterPassed pre w)) := by
  induction pre with
  | nil =>
    intro w _
    simp only [List.nil_append, runAll, run_fail b ref i sum w hf, Outcome.andThen, afterPassed,
      List.foldl_nil]
  | cons p rest ih =>
    intro w h
    simp only [List.cons_append, runAll, run_pass p ref w (h p (List.mem_cons_self _ _)),
      Outcome.andThen, afterPassed, List.foldl_cons]
    exact ih _ (fun c hc => h c (List.mem_cons_of_mem _ hc))

theorem eventsOf_quiet (r : Outcome Nat) : eventsOf (quiet r) = [] := by
  cases r <;> rfl

/-- The serial baseline passes against the generated reference. -/
theorem cpuBench_passes {ρ : Type} (R : FastRandom ρ) (n : Nat) (g : GenState ρ)
    (hn : n ≤ INT_MAX) (hgen : generate R n = .done g) :
    serialSum g.as n = .done g.reference_sum ∧ Passes (cpuBench g.as n) g.reference_sum := by
  obtain ⟨hlen, href, _⟩ := generate_spec R n g hgen
  have h : serialSum g.as n = .done g.reference_sum := by
    have := serialSum_spec g.as (by omega)
    rw [hlen] at this
    rw [this, href]
  exact ⟨h, fun j _ => by simp [cpuBench, h, quiet, sumOf]⟩

/-- The OpenMP baseline passes against the generated reference under valid schedules. -/
theorem ompBench_passes {ρ : Type} (R : FastRandom ρ) (n : Nat) (g : GenState ρ)
    (hgen : generate R n = .done g) (sched : Nat → List (List Nat))
    (hv : ∀ j, j < benchmarkingIters → ValidSchedule n (sched j)) :
    Passes (ompBench g.as sched) g.reference_sum := by
  obtain ⟨hlen, href, _⟩ := generate_spec R n g hgen
  intro j hj
  have := ompSum_spec g.as (sched j) (by rw [hlen]; exact hv j hj)
  simp [ompBench, this, quiet, sumOf, href]

theorem writeN_full {ι : Type} (B : Backend ι) (x : ι) (as : List Nat) :
    writeN (createN B x as.length) as as.length = as := by
  simp [writeN, createN]

theorem filter_flatMap_nil {α β : Type} (p : β → Bool) (f : α → List β) (l : List α)
    (h : ∀ a ∈ l, (f a).filter p = []) : (l.flatMap f).filter p = [] := by
  induction l with
  | nil => rfl
  | cons a rest ih =>
    rw [List.flatMap_cons, List.filter_append, h a (List.mem_cons_self _ _),
      ih (fun c hc => h c (List.mem_cons_of_mem _ hc))]
    rfl

theorem cpuBench_no_exec (as : List Nat) (n j : Nat) :
    (iterEvents (cpuBench as n) j).filter Event.isExec = [] := by
  simp [iterEvents, cpuBench, eventsOf_quiet, Event.isExec]

theorem ompBench_no_exec (as : List Nat) (sched : Nat → List (List Nat)) (j : Nat) :
    (iterEvents (ompBench as sched) j).filter Event.isExec = [] := by
  simp [iterEvents, ompBench, eventsOf_quiet, Event.isExec]

theorem wrap32_succ_ne (s : Nat) : wrap32 (s + 1) ≠ wrap32 s := by
  unfold wrap32; omega

/-- A run of `main` over a backend whose kernels are off by one, with a single
OpenMP thread: the two CPU baselines pass, the first kernel block fails its
first check, and the run ends there. -/
theorem mainWith_offByOne {ρ : Type} (R : FastRandom ρ) (n : Nat) (hn : n ≤ INT_MAX) :
    ∃ w1, mainWith R (oneThread n) offByOneBackend (fun _ _ => ()) n ⟨[], [], []⟩
        = .thrown "sum_global_atomic result should be consistent!" w1 ∧
      w1.cout = resultLines "CPU:     " ++ resultLines "CPU OMP: " ∧
      w1.events.filter Event.isExec = [Event.exec "sum_global_atomic" 128 n n [0]] := by
  obtain ⟨g, hg⟩ := generate_total R n hn
  obtain ⟨hlen, href, _⟩ := generate_spec R n g hg
  have hcpu := (cpuBench_passes R n g hn hg).2
  have homp := ompBench_passes R n g hg (oneThread n)
    (fun j _ => by simp [ValidSchedule, oneThread])
  have hgpu : (benchmarkKernel offByOneBackend (fun _ _ => ()) g.as n
      "sum_global_atomic" 128 0 0).compute 0 =
      .done (wrap32 (g.as.sum + 1),
        [Event.exec "sum_global_atomic" 128 n n [0], Event.readN (wrap32 (g.as.sum + 1))]) := by
    have hw := writeN_full offByOneBackend () g.as
    rw [hlen] at hw
    simp only [benchmarkKernel, gpuIteration, hw]
    simp [offByOneBackend, globalWorkSize, writeN, createN]
  have hfail : FailsAt (benchmarkKernel offByOneBackend (fun _ _ => ()) g.as n
      "sum_global_atomic" 128 0 0) g.reference_sum 0 (wrap32 (g.as.sum + 1)) := by
    refine ⟨by decide, fun j hj => absurd hj (Nat.not_lt_zero j), ?_, ?_⟩
    · rw [hgpu]; rfl
    · rw [href]; exact wrap32_succ_ne _
  have hrun := runAll_fail g.reference_sum 0 (wrap32 (g.as.sum + 1)) _
    [benchmarkKernel offByOneBackend (fun _ _ => ()) g.as n "sum_loop" 128 128 0,
     benchmarkKernel offByOneBackend (fun _ _ => ()) g.as n "sum_loop_coalesced" 128 128 0,
     benchmarkKernel offByOneBackend (fun _ _ => ()) g.as n "sum_local_mem" 128 0 128,
     benchmarkKernel offByOneBackend (fun _ _ => ()) g.as n "sum_local_mem_and_tree" 128 0 128]
    hfail [cpuBench g.as n, ompBench g.as (oneThread n)] ⟨[], [], []⟩
    (by
      intro p hp
      simp only [List.mem_cons, List.mem_singleton, List.not_mem_nil, or_false] at hp
      rcases hp with rfl | rfl
      · exact hcpu
      · exact homp)
  have hmain : mainWith R (oneThread n) offByOneBackend (fun _ _ => ()) n ⟨[], [], []⟩
      = runAll g.reference_sum (benches offByOneBackend (fun _ _ => ()) (oneThread n) g.as n)
          ⟨[], [], []⟩ := by
    simp only [mainWith, hg]
  rw [hmain]
  refine ⟨_, hrun, ?_, ?_⟩
  · simp [failedWorld, afterPassed_cout, cpuBench, ompBench]
  · simp only [failedWorld, afterPassed_events, List.nil_append, List.filter_append]
    have hev : (List.range (0 + 1)).flatMap (iterEvents (benchmarkKernel offByOneBackend
        (fun _ _ => ()) g.as n "sum_global_atomic" 128 0 0)) =
        [Event.iteration (gpuTag "sum_global_atomic") 0,
         Event.exec "sum_global_atomic" 128 n n [0], Event.readN (wrap32 (g.as.sum + 1))] := by
      have h1 : List.range (0 + 1) = [0] := rfl
      rw [h1, List.flatMap_cons, List.flatMap_nil, List.append_nil]
      simp only [iterEvents, hgpu, eventsOf]
      rfl
    rw [filter_flatMap_nil, hev]
    · rfl
    · intro p hp
      apply filter_flatMap_nil
      intro j _
      simp only [List.mem_cons, List.mem_singleton, List.not_mem_nil, or_false] at hp
      rcases hp with rfl | rfl
      · exact cpuBench_no_exec _ _ _
      · exact ompBench_no_exec _ _ _

theorem zeroed_buffer {ι : Type} (B : Backend ι) (x : ι) : writeN (createN B x 1) [0] 1 = [0] :=
  rfl

theorem divup_spec (n v : Nat) (hv : 0 < v) :
    n ≤ divup n v * v ∧ ∀ g, n ≤ g * v → divup n v ≤ g := by
  unfold divup
  constructor
  · by_contra hlt
    have hlt1 : (n + v - 1) / v * v < n := Nat.lt_of_not_le hlt
    have h2 : ((n + v - 1) / v + 1) * v ≤ n + v - 1 := by
      rw [Nat.add_mul, Nat.one_mul]; omega
    have h3 : (n + v - 1) / v + 1 ≤ (n + v - 1) / v := (Nat.le_div_iff_mul_le hv).2 h2
    omega
  · intro g hg
    have h1 : n + v - 1 < (g + 1) * v := by
      rw [Nat.add_mul, Nat.one_mul]; omega
    have h2 : (n + v - 1) / v < g + 1 := (Nat.div_lt_iff_lt_mul hv).2 h1
    omega

theorem sum_take_le (l : List Nat) (k : Nat) : (l.take k).sum ≤ l.sum := by
  conv_rhs => rw [← List.take_append_drop k l, List.sum_append]
  omega

/-! ## Claims -/

/-- C1: for every generator and every `n ≤ INT_MAX` the generation loop
completes with an array of `n` 32-bit values, the serial loop over it yields
exactly `reference_sum`, and the serial benchmark loop completes its ten
iterations (ten laps, nothing written to `std::cerr`): no check throws. -/
theorem serial_sum_matches_reference {ρ : Type} (R : FastRandom ρ) (n : Nat)
    (hn : n ≤ INT_MAX) :
    ∃ g, generate R n = .done g ∧ g.as.length = n ∧ (∀ x ∈ g.as, x < 4294967296) ∧
      g.reference_sum = wrap32 g.as.sum ∧
      serialSum g.as n = .done g.reference_sum ∧
      ∀ w, ∃ w1, benchIters (cpuBench g.as n).tag (cpuBench g.as n).compute g.reference_sum
          (cpuBench g.as n).message (cpuBench g.as n).line w
            = .done ({ laps := benchmarkingIters }, w1) ∧ w1.cerr = w.cerr := by
  obtain ⟨g, hg⟩ := generate_total R n hn
  obtain ⟨hlen, href, hlt⟩ := generate_spec R n g hg
  obtain ⟨hs, hp⟩ := cpuBench_passes R n g hn hg
  refine ⟨g, hg, hlen, hlt, href, hs, fun w => ⟨_, benchIters_pass _ _ w hp, rfl⟩⟩

theorem serial_sum_matches_reference_witness :
    3 ≤ INT_MAX ∧
    ∃ g, generate (replay [3, 4, -1]) 3 = .done g ∧ g.as.length = 3 ∧
      (∀ x ∈ g.as, x < 4294967296) ∧
      g.reference_sum = wrap32 g.as.sum ∧
      serialSum g.as 3 = .done g.reference_sum ∧
      ∀ w, ∃ w1, benchIters (cpuBench g.as 3).tag (cpuBench g.as 3).compute g.reference_sum
          (cpuBench g.as 3).message (cpuBench g.as 3).line w
            = .done ({ laps := benchmarkingIters }, w1) ∧ w1.cerr = w.cerr :=
  ⟨by decide, serial_sum_matches_reference (replay [3, 4, -1]) 3 (by decide)⟩

/-- C2: on the generated array, under every schedule that hands out each index
of `0..n-1` exactly once (any number of threads, any chunks, each thread
folding its chunk into a private sum from 0), the OpenMP reduction yields
exactly `reference_sum`, which is the array sum modulo `2^32`, whether the
private sums are added one after the other in any order or pairwise along any
grouping. -/
theorem omp_sum_matches_reference {ρ : Type} (R : FastRandom ρ) (n : Nat) (g : GenState ρ)
    (hgen : generate R n = .done g) (chunks : List (List Nat))
    (hv : ValidSchedule n chunks) :
    ompSum g.as chunks = .done g.reference_sum ∧ g.reference_sum = g.as.sum % 2 ^ 32 ∧
      ∀ t : Combine, ValidSchedule n t.chunks → ompSumGrouped g.as t = .done g.reference_sum := by
  obtain ⟨hlen, href, _⟩ := generate_spec R n g hgen
  have := ompSum_spec g.as chunks (by rw [hlen]; exact hv)
  refine ⟨by rw [this, href], by rw [href]; rfl, fun t ht => ?_⟩
  rw [ompSumGrouped_spec g.as t (by rw [hlen]; exact ht), href]

theorem omp_sum_matches_reference_witness :
    generate (replay [3, 4, -1]) 3 = .done ⟨[3, 4, 4294967295], [], 6⟩ ∧
    ValidSchedule 3 [[2], [0, 1]] ∧
    ompSum [3, 4, 4294967295] [[2], [0, 1]] = .done 6 ∧ 6 = [3, 4, 4294967295].sum % 2 ^ 32 ∧
    ∀ t : Combine, ValidSchedule 3 t.chunks → ompSumGrouped [3, 4, 4294967295] t = .done 6 :=
  ⟨by decide, by decide,
    omp_sum_matches_reference (replay [3, 4, -1]) 3 ⟨[3, 4, 4294967295], [], 6⟩ (by decide)
      [[2], [0, 1]] (by decide)⟩

/-- C3: when the generation loop has produced `n` elements that are all at
most `UINT_MAX / n` (the bound it passes to `r.next`), the exact sum of the
elements, and of every initial segment, is at most `UINT_MAX`, so the wrapping
accumulator never wraps and `reference_sum` is that exact sum; for the
program's `n` the bound is 42 and the sum is at most 4,200,000,000 < 2^32.
The loop only completes with `n = 0` on the empty array, so `n ≥ 1` need not
be assumed. -/
theorem reference_sum_no_overflow {ρ : Type} (R : FastRandom ρ) (n : Nat) (g : GenState ρ)
    (hgen : generate R n = .done g) (hb : ∀ x ∈ g.as, x ≤ UINT_MAX / n) :
    g.as.length = n ∧ g.as.sum ≤ UINT_MAX ∧ (∀ k, (g.as.take k).sum ≤ UINT_MAX) ∧
      g.reference_sum = g.as.sum ∧
      UINT_MAX / programN = 42 ∧ programN * 42 = 4200000000 ∧ 4200000000 < 2 ^ 32 := by
  obtain ⟨hlen, href, _⟩ := generate_spec R n g hgen
  have h1 : g.as.sum ≤ g.as.length * (UINT_MAX / n) := by
    simpa using List.sum_le_card_nsmul g.as (UINT_MAX / n) hb
  have h2 : g.as.sum ≤ UINT_MAX := by
    rw [hlen] at h1
    exact le_trans h1 (Nat.mul_div_le UINT_MAX n)
  refine ⟨hlen, h2, fun k => le_trans (sum_take_le _ k) h2, ?_, by decide, by decide, by decide⟩
  rw [href, wrap32_of_le h2]

theorem reference_sum_no_overflow_witness :
    1 ≤ 3 ∧ generate (replay [3, 4, 1431655765]) 3 = .done ⟨[3, 4, 1431655765], [], 1431655772⟩ ∧
    (∀ x ∈ [3, 4, 1431655765], x ≤ UINT_MAX / 3) ∧
    ([3, 4, 1431655765].length = 3 ∧ [3, 4, 1431655765].sum ≤ UINT_MAX ∧
      (∀ k, ([3, 4, 1431655765].take k).sum ≤ UINT_MAX) ∧
      1431655772 = [3, 4, 1431655765].sum ∧
      UINT_MAX / programN = 42 ∧ programN * 42 = 4200000000 ∧ 4200000000 < 2 ^ 32) :=
  ⟨by decide, by decide, by decide,
    reference_sum_no_overflow (replay [3, 4, 1431655765]) 3 ⟨[3, 4, 1431655765], [], 1431655772⟩
      (by decide) (by decide)⟩

/-- C5: `raiseFail` throws exactly when its two values differ.  In any
benchmark block (the serial, OpenMP and kernel blocks are all of this form),
when iterations `0..i-1` produce `reference_sum` and iteration `i` produces
`sum`: iteration `i` throws iff `sum ≠ reference_sum`, it throws with the timer
as it was at the start of the iteration, and in that case the loop ends with
exactly `i` laps, only iterations `0..i` have run, and nothing has been written
to `std::cout` (the two result lines are not printed). -/
theorem failed_check_stops_block (b : Bench) (reference_sum i sum : Nat) (w : World)
    (hi : i < benchmarkingIters)
    (hpass : ∀ j, j < i → sumOf (b.compute j) = some reference_sum)
    (hsum : sumOf (b.compute i) = some sum) :
    (∀ (x y : Nat) (m f : String) (l : Nat) (w0 : World),
      (∃ w1, raiseFail x y m f l w0 = .thrown m w1) ↔ x ≠ y) ∧
    (∀ (t : timer) (w0 : World),
      (∃ m s, benchBody b.tag b.compute reference_sum b.message b.line i (t, w0) = .thrown m s)
        ↔ sum ≠ reference_sum) ∧
    (∀ (t : timer) (w0 : World) (m : String) (s : timer × World),
      benchBody b.tag b.compute reference_sum b.message b.line i (t, w0) = .thrown m s →
        s.1.laps = t.laps) ∧
    (sum ≠ reference_sum →
      ∃ w1, benchIters b.tag b.compute reference_sum b.message b.line w
              = .thrown b.message ({ laps := i }, w1) ∧
        b.run reference_sum w = .thrown b.message w1 ∧
        w1.cout = w.cout ∧
        w1.events = w.events ++ (List.range (i + 1)).flatMap (iterEvents b)) := by
  refine ⟨?_, ?_, ?_, ?_⟩
  · intro x y m f l w0
    unfold raiseFail
    by_cases h : x = y <;> simp [h]
  · intro t w0
    by_cases h : sum = reference_sum
    · subst h
      simp [benchBody_pass b sum i t w0 hsum]
    · simp [benchBody_fail b reference_sum i sum t w0 hsum h, h]
  · intro t w0 m s h
    by_cases hne : sum = reference_sum
    · subst hne
      simp [benchBody_pass b sum i t w0 hsum] at h
    · rw [benchBody_fail b reference_sum i sum t w0 hsum hne] at h
      simp only [Outcome.thrown.injEq] at h
      rw [← h.2]
  · intro hne
    have hf : FailsAt b reference_sum i sum := ⟨hi, hpass, hsum, hne⟩
    exact ⟨_, benchIters_fail b reference_sum i sum w hf, run_fail b reference_sum i sum w hf,
      rfl, rfl⟩

theorem failed_check_stops_block_witness :
    3 < benchmarkingIters ∧
    (∀ j, j < 3 → sumOf (racyLoop.compute j) = some 3) ∧
    sumOf (racyLoop.compute 3) = some 0 ∧
    ((∀ (x y : Nat) (m f : String) (l : Nat) (w0 : World),
      (∃ w1, raiseFail x y m f l w0 = .thrown m w1) ↔ x ≠ y) ∧
    (∀ (t : timer) (w0 : World),
      (∃ m s, benchBody racyLoop.tag racyLoop.compute 3 racyLoop.message racyLoop.line 3 (t, w0)
        = .thrown m s) ↔ 0 ≠ 3) ∧
    (∀ (t : timer) (w0 : World) (m : String) (s : timer × World),
      benchBody racyLoop.tag racyLoop.compute 3 racyLoop.message racyLoop.line 3 (t, w0)
        = .thrown m s → s.1.laps = t.laps) ∧
    (0 ≠ 3 →
      ∃ w1, benchIters racyLoop.tag racyLoop.compute 3 racyLoop.message racyLoop.line ⟨[], [], []⟩
              = .thrown racyLoop.message ({ laps := 3 }, w1) ∧
        racyLoop.run 3 ⟨[], [], []⟩ = .thrown racyLoop.message w1 ∧
        w1.cout = [] ∧
        w1.events = [] ++ (List.range (3 + 1)).flatMap (iterEvents racyLoop))) :=
  ⟨by decide, by decide, by decide,
    failed_check_stops_block racyLoop 3 3 0 ⟨[], [], []⟩ (by decide) (by decide) (by decide)⟩

/-- C6 (as amended): nothing in `main` catches the exception.  When the
blocks before `b` in the run order pass and `b` fails in iteration `i`, the
exception of `b` leaves `main`: `std::cout` holds the result lines of the
earlier blocks only, and the trace holds the iterations of the earlier blocks
and iterations `0..i` of `b` only, so no block after `b` is executed or
reported. -/
theorem failure_aborts_run {ι ρ : Type} (R : FastRandom ρ) (sched : Nat → List (List Nat))
    (B : Backend ι) (gpuSched : String → Nat → ι) (n : Nat) (w : World) (g : GenState ρ)
    (hgen : generate R n = .done g)
    (pre : List Bench) (b : Bench) (post : List Bench)
    (hsplit : benches B gpuSched sched g.as n = pre ++ b :: post)
    (hpre : ∀ p ∈ pre, Passes p g.reference_sum)
    (i sum : Nat) (hfail : FailsAt b g.reference_sum i sum) :
    ∃ w1, mainWith R sched B gpuSched n w = .thrown b.message w1 ∧
      w1.cout = w.cout ++ pre.flatMap (fun p => resultLines p.tag) ∧
      w1.cerr = w.cerr ++ [cerrLine b g.reference_sum sum] ∧
      w1.events = w.events ++
        pre.flatMap (fun p => (List.range benchmarkingIters).flatMap (iterEvents p)) ++
        (List.range (i + 1)).flatMap (iterEvents b) := by
  refine ⟨failedWorld b g.reference_sum i sum (afterPassed pre w), ?_, ?_, ?_, ?_⟩
  · simp only [mainWith, hgen, hsplit]
    exact runAll_fail g.reference_sum i sum b post hfail pre w hpre
  · simp [failedWorld, afterPassed_cout]
  · simp [failedWorld, afterPassed_cerr]
  · simp [failedWorld, afterPassed_events]

theorem failure_aborts_run_witness :
    generate (replay [3, 4, 5]) 3 = .done ⟨[3, 4, 5], [], 12⟩ ∧
    benches brokenLoopBackend (fun _ _ => ()) (fun _ => [[2], [0, 1]]) [3, 4, 5] 3 =
      [cpuBench [3, 4, 5] 3, ompBench [3, 4, 5] (fun _ => [[2], [0, 1]]),
        benchmarkKernel brokenLoopBackend (fun _ _ => ()) [3, 4, 5] 3 "sum_global_atomic" 128 0 0]
      ++ benchmarkKernel brokenLoopBackend (fun _ _ => ()) [3, 4, 5] 3 "sum_loop" 128 128 0 ::
        [benchmarkKernel brokenLoopBackend (fun _ _ => ()) [3, 4, 5] 3 "sum_loop_coalesced" 128 128 0,
         benchmarkKernel brokenLoopBackend (fun _ _ => ()) [3, 4, 5] 3 "sum_local_mem" 128 0 128,
         benchmarkKernel brokenLoopBackend (fun _ _ => ()) [3, 4, 5] 3 "sum_local_mem_and_tree" 128 0
           128] ∧
    (∀ p ∈ [cpuBench [3, 4, 5] 3, ompBench [3, 4, 5] (fun _ => [[2], [0, 1]]),
        benchmarkKernel brokenLoopBackend (fun _ _ => ()) [3, 4, 5] 3 "sum_global_atomic" 128 0 0],
      Passes p 12) ∧
    FailsAt (benchmarkKernel brokenLoopBackend (fun _ _ => ()) [3, 4, 5] 3 "sum_loop" 128 128 0)
      12 0 1 ∧
    ∃ w1, mainWith (replay [3, 4, 5]) (fun _ => [[2], [0, 1]]) brokenLoopBackend (fun _ _ => ()) 3
        ⟨[], [], []⟩ = .thrown "sum_loop result should be consistent!" w1 ∧
      w1.cout = [] ++ [cpuBench [3, 4, 5] 3, ompBench [3, 4, 5] (fun _ => [[2], [0, 1]]),
        benchmarkKernel brokenLoopBackend (fun _ _ => ()) [3, 4, 5] 3 "sum_global_atomic" 128 0
          0].flatMap (fun p => resultLines p.tag) ∧
      w1.cerr = [] ++ [cerrLine
        (benchmarkKernel brokenLoopBackend (fun _ _ => ()) [3, 4, 5] 3 "sum_loop" 128 128 0) 12 1] ∧
      w1.events = [] ++
        [cpuBench [3, 4, 5] 3, ompBench [3, 4, 5] (fun _ => [[2], [0, 1]]),
          benchmarkKernel brokenLoopBackend (fun _ _ => ()) [3, 4, 5] 3 "sum_global_atomic" 128 0
            0].flatMap (fun p => (List.range benchmarkingIters).flatMap (iterEvents p)) ++
        (List.range (0 + 1)).flatMap (iterEvents
          (benchmarkKernel brokenLoopBackend (fun _ _ => ()) [3, 4, 5] 3 "sum_loop" 128 128 0)) :=
  ⟨by decide, rfl,
    by
      intro p hp
      simp only [List.mem_cons, List.mem_singleton, List.not_mem_nil, or_false] at hp
      rcases hp with rfl | rfl | rfl <;> decide,
    by decide,
    failure_aborts_run (replay [3, 4, 5]) (fun _ => [[2], [0, 1]]) brokenLoopBackend
      (fun _ _ => ()) 3 ⟨[], [], []⟩ ⟨[3, 4, 5], [], 12⟩ (by decide)
      [cpuBench [3, 4, 5] 3, ompBench [3, 4, 5] (fun _ => [[2], [0, 1]]),
        benchmarkKernel brokenLoopBackend (fun _ _ => ()) [3, 4, 5] 3 "sum_global_atomic" 128 0 0]
      (benchmarkKernel brokenLoopBackend (fun _ _ => ()) [3, 4, 5] 3 "sum_loop" 128 128 0)
      [benchmarkKernel brokenLoopBackend (fun _ _ => ()) [3, 4, 5] 3 "sum_loop_coalesced" 128 128 0,
       benchmarkKernel brokenLoopBackend (fun _ _ => ()) [3, 4, 5] 3 "sum_local_mem" 128 0 128,
       benchmarkKernel brokenLoopBackend (fun _ _ => ()) [3, 4, 5] 3 "sum_local_mem_and_tree" 128 0
         128]
      rfl
      (by
        intro p hp
        simp only [List.mem_cons, List.mem_singleton, List.not_mem_nil, or_false] at hp
        rcases hp with rfl | rfl | rfl <;> decide)
      0 1 (by decide)⟩

/-- C6 (counterexample): the program run with a generator that always returns
1, a single OpenMP thread and a backend whose kernels are off by one.  The
first kernel block `sum_global_atomic` fails its first check and `main` ends
with that exception: `std::cout` holds the lines of the two CPU baselines
only, and the only dispatch of the whole run is that of `sum_global_atomic`, so
the later strategy `sum_loop` (like the three after it) is neither executed nor
reported. -/
theorem later_strategies_not_run :
    ∃ w1, main constRandom (oneThread programN) offByOneBackend (fun _ _ => ()) ⟨[], [], []⟩
        = .thrown "sum_global_atomic result should be consistent!" w1 ∧
      w1.cout = resultLines "CPU:     " ++ resultLines "CPU OMP: " ∧
      w1.events.filter Event.isExec =
        [Event.exec "sum_global_atomic" 128 programN programN [0]] :=
  mainWith_offByOne constRandom programN (by decide)

/-- C7: in every iteration of every kernel block the buffer handed to
`kernel.exec` is `[0]`, whatever a fresh buffer contains (`B.fresh`); the only
dispatch event of an iteration carries that zeroed buffer; and when the
kernel's result is a function of the input array, `n` and the initial
accumulator alone, all iterations read back the same sum. -/
theorem accumulator_zero_at_dispatch {ι : Type} (B : Backend ι) (gpuSched : String → Nat → ι)
    (as : List Nat) (n : Nat) (kernelName : String)
    (workGroupSize valuesPerWorkItem workgroupSize : Nat) :
    (∀ iter,
      (benchmarkKernel B gpuSched as n kernelName workGroupSize valuesPerWorkItem
          workgroupSize).compute iter =
        match (B.exec (gpuSched kernelName iter) kernelName valuesPerWorkItem workGroupSize
            workGroupSize (globalWorkSize n valuesPerWorkItem)
            (writeN (createN B (gpuSched kernelName 0) n) as n) n [0])[0]? with
        | some sum =>
          .done (sum, [Event.exec kernelName workGroupSize (globalWorkSize n valuesPerWorkItem)
                        n [0], Event.readN sum])
        | none => .undefined) ∧
    (∀ iter e,
      e ∈ iterEvents (benchmarkKernel B gpuSched as n kernelName workGroupSize valuesPerWorkItem
          workgroupSize) iter →
      e.isExec = true →
      e = Event.exec kernelName workGroupSize (globalWorkSize n valuesPerWorkItem) n [0]) ∧
    ((∃ f : List Nat → Nat → List Nat → List Nat, ∀ x as_gpu m res_gpu,
        B.exec x kernelName valuesPerWorkItem workGroupSize workGroupSize
          (globalWorkSize n valuesPerWorkItem) as_gpu m res_gpu = f as_gpu m res_gpu) →
      ∀ i j,
        (benchmarkKernel B gpuSched as n kernelName workGroupSize valuesPerWorkItem
          workgroupSize).compute i =
        (benchmarkKernel B gpuSched as n kernelName workGroupSize valuesPerWorkItem
          workgroupSize).compute j) := by
  have hcomp : ∀ iter,
      (benchmarkKernel B gpuSched as n kernelName workGroupSize valuesPerWorkItem
          workgroupSize).compute iter =
        match (B.exec (gpuSched kernelName iter) kernelName valuesPerWorkItem workGroupSize
            workGroupSize (globalWorkSize n valuesPerWorkItem)
            (writeN (createN B (gpuSched kernelName 0) n) as n) n [0])[0]? with
        | some sum =>
          .done (sum, [Event.exec kernelName workGroupSize (globalWorkSize n valuesPerWorkItem)
                        n [0], Event.readN sum])
        | none => .undefined := by
    intro iter
    simp only [benchmarkKernel, gpuIteration, zeroed_buffer]
  refine ⟨hcomp, ?_, ?_⟩
  · intro iter e he hx
    simp only [iterEvents, hcomp iter, List.mem_cons] at he
    rcases he with rfl | he
    · simp [Event.isExec] at hx
    · cases hout : (B.exec (gpuSched kernelName iter) kernelName valuesPerWorkItem workGroupSize
            workGroupSize (globalWorkSize n valuesPerWorkItem)
            (writeN (createN B (gpuSched kernelName 0) n) as n) n [0])[0]? with
      | none => simp [hout, eventsOf] at he
      | some sum =>
        simp only [hout, eventsOf, List.mem_cons, List.mem_singleton, List.not_mem_nil,
          or_false] at he
        rcases he with rfl | rfl
        · rfl
        · simp [Event.isExec] at hx
  · rintro ⟨f, hf⟩ i j
    rw [hcomp i, hcomp j, hf, hf]

theorem accumulator_zero_at_dispatch_witness :
    (∃ f : List Nat → Nat → List Nat → List Nat, ∀ (x : Unit) as_gpu m res_gpu,
        exactBackend.exec x "sum_loop" 128 128 128 (globalWorkSize 3 128) as_gpu m res_gpu
          = f as_gpu m res_gpu) ∧
    (benchmarkKernel exactBackend (fun _ _ => ()) [3, 4, 5] 3 "sum_loop" 128 128 0).compute 0 =
      .done (12, [Event.exec "sum_loop" 128 1 3 [0], Event.readN 12]) ∧
    ∀ i j,
      (benchmarkKernel exactBackend (fun _ _ => ()) [3, 4, 5] 3 "sum_loop" 128 128 0).compute i =
      (benchmarkKernel exactBackend (fun _ _ => ()) [3, 4, 5] 3 "sum_loop" 128 128 0).compute j :=
  have hdet : ∃ f : List Nat → Nat → List Nat → List Nat, ∀ (x : Unit) as_gpu m res_gpu,
      exactBackend.exec x "sum_loop" 128 128 128 (globalWorkSize 3 128) as_gpu m res_gpu
        = f as_gpu m res_gpu :=
    ⟨fun as_gpu m res_gpu => [wrap32 (res_gpu.headD 0 + (as_gpu.take m).sum)], fun _ _ _ _ => rfl⟩
  ⟨hdet, by decide,
    (accumulator_zero_at_dispatch exactBackend (fun _ _ => ()) [3, 4, 5] 3 "sum_loop" 128 128
      0).2.2 hdet⟩

/-- C8: with `n = 0` the generation loop completes without running its body
(the array is empty, the generator is still in its seeded state and
`reference_sum = 0`), although the body itself would be undefined (it divides
by `n`); the serial loop and the OpenMP loop under any valid schedule read no
element (any read of the empty array would be undefined, every chunk is empty)
and yield 0; and both baseline blocks pass their ten checks. -/
theorem empty_input {ρ : Type} (R : FastRandom ρ) (chunks : List (List Nat))
    (hv : ValidSchedule 0 chunks) (w : World) :
    generate R 0 = .done { as := [], r := R.seed 42, reference_sum := 0 } ∧
    (∀ i s, genBody R 0 i s = .undefined) ∧
    (∀ i sum, sumBody [] i sum = .undefined) ∧
    serialSum [] 0 = .done 0 ∧
    (∀ c ∈ chunks, c = []) ∧
    ompSum [] chunks = .done 0 ∧
    (cpuBench [] 0).run 0 w = .done (passedWorld (cpuBench [] 0) w) ∧
    (ompBench [] (fun _ => chunks)).run 0 w = .done (passedWorld (ompBench [] (fun _ => chunks)) w) ∧
    (passedWorld (cpuBench [] 0) w).cerr = w.cerr ∧
    (passedWorld (ompBench [] (fun _ => chunks)) w).cerr = w.cerr := by
  have homp : ompSum [] chunks = .done 0 := by
    have := ompSum_spec [] chunks (by simpa using hv)
    simpa [wrap32] using this
  have hempty : ∀ c ∈ chunks, c = [] := by
    intro c hc
    have hnil : chunks.flatten = [] := by
      have := hv
      simp only [ValidSchedule, List.range_zero] at this
      exact List.Perm.eq_nil this
    have := List.flatten_eq_nil_iff.1 hnil
    exact this c hc
  refine ⟨rfl, ?_, ?_, rfl, hempty, homp, ?_, ?_, rfl, rfl⟩
  · intro i s; simp [genBody]
  · intro i sum; simp [sumBody]
  · exact run_pass _ _ _ (fun j _ => rfl)
  · exact run_pass _ _ _ (fun j _ => by simp [ompBench, homp, quiet, sumOf])

theorem empty_input_witness :
    ValidSchedule 0 [[], []] ∧
    generate (replay [5]) 0 = .done { as := [], r := (replay [5]).seed 42, reference_sum := 0 } ∧
    (∀ i s, genBody (replay [5]) 0 i s = .undefined) ∧
    (∀ i sum, sumBody [] i sum = .undefined) ∧
    serialSum [] 0 = .done 0 ∧
    (∀ c ∈ [[], []], c = ([] : List Nat)) ∧
    ompSum [] [[], []] = .done 0 ∧
    (cpuBench [] 0).run 0 ⟨[], [], []⟩ = .done (passedWorld (cpuBench [] 0) ⟨[], [], []⟩) ∧
    (ompBench [] (fun _ => [[], []])).run 0 ⟨[], [], []⟩
      = .done (passedWorld (ompBench [] (fun _ => [[], []])) ⟨[], [], []⟩) ∧
    (passedWorld (cpuBench [] 0) ⟨[], [], []⟩).cerr = [] ∧
    (passedWorld (ompBench [] (fun _ => [[], []])) ⟨[], [], []⟩).cerr = [] :=
  ⟨by decide, empty_input (replay [5]) [[], []] (by decide) ⟨[], [], []⟩⟩

/-- C9: the number of work items requested is `n` when `valuesPerWorkItem = 0`;
otherwise it is `divup n valuesPerWorkItem`, which is the ceiling of
`n / valuesPerWorkItem`: the least `g` with `g * valuesPerWorkItem ≥ n`, so
that every index below `n` lies in the block of `valuesPerWorkItem` elements of
some requested work item. -/
theorem globalWorkSize_ceil (n valuesPerWorkItem : Nat) :
    (valuesPerWorkItem = 0 → globalWorkSize n valuesPerWorkItem = n) ∧
    (valuesPerWorkItem ≠ 0 →
      globalWorkSize n valuesPerWorkItem = divup n valuesPerWorkItem ∧
      globalWorkSize n valuesPerWorkItem = ⌈(n : ℚ) / (valuesPerWorkItem : ℚ)⌉₊ ∧
      n ≤ globalWorkSize n valuesPerWorkItem * valuesPerWorkItem ∧
      (∀ g, n ≤ g * valuesPerWorkItem → globalWorkSize n valuesPerWorkItem ≤ g) ∧
      ∀ idx, idx < n → ∃ wi, wi < globalWorkSize n valuesPerWorkItem ∧
        wi * valuesPerWorkItem ≤ idx ∧ idx < (wi + 1) * valuesPerWorkItem) := by
  constructor
  · intro h; simp [globalWorkSize, h]
  · intro h
    have hv : 0 < valuesPerWorkItem := Nat.pos_of_ne_zero h
    have hg : globalWorkSize n valuesPerWorkItem = divup n valuesPerWorkItem := by
      simp [globalWorkSize, h]
    obtain ⟨h1, h2⟩ := divup_spec n valuesPerWorkItem hv
    have hvq : (0 : ℚ) < (valuesPerWorkItem : ℚ) := by exact_mod_cast hv
    refine ⟨hg, ?_, by rw [hg]; exact h1, by rw [hg]; exact h2, ?_⟩
    · rw [hg]
      apply le_antisymm
      · apply h2
        have hle : (n : ℚ) / (valuesPerWorkItem : ℚ) ≤ ⌈(n : ℚ) / (valuesPerWorkItem : ℚ)⌉₊ :=
          Nat.le_ceil _
        have := (div_le_iff₀ hvq).1 hle
        exact_mod_cast this
      · apply Nat.ceil_le.2
        apply (div_le_iff₀ hvq).2
        exact_mod_cast h1
    · intro idx hidx
      refine ⟨idx / valuesPerWorkItem, ?_, Nat.div_mul_le_self idx valuesPerWorkItem, ?_⟩
      · rw [hg]
        exact (Nat.div_lt_iff_lt_mul hv).2 (Nat.lt_of_lt_of_le hidx h1)
      · exact (Nat.div_lt_iff_lt_mul hv).1 (Nat.lt_succ_self _)

theorem globalWorkSize_ceil_witness :
    globalWorkSize 10 4 = 3 ∧
    ((4 : Nat) ≠ 0 →
      globalWorkSize 10 4 = divup 10 4 ∧
      globalWorkSize 10 4 = ⌈((10 : Nat) : ℚ) / ((4 : Nat) : ℚ)⌉₊ ∧
      10 ≤ globalWorkSize 10 4 * 4 ∧
      (∀ g, 10 ≤ g * 4 → globalWorkSize 10 4 ≤ g) ∧
      ∀ idx, idx < 10 → ∃ wi, wi < globalWorkSize 10 4 ∧ wi * 4 ≤ idx ∧ idx < (wi + 1) * 4) ∧
    ((0 : Nat) = 0 → globalWorkSize 10 0 = 10) :=
  ⟨by decide, (globalWorkSize_ceil 10 4).2, (globalWorkSize_ceil 10 0).1⟩

/-- C10 (counterexample): for the dispatches with `valuesPerWorkItem = 128`
the remainder of the global work size modulo the work-group size is not 34. -/
theorem program_loop_gws_mod_ne_34 : globalWorkSize programN 128 % 128 ≠ 34 := by
  decide

/-- C10 (as amended): every dispatch of the program uses work-group size 128.
With `valuesPerWorkItem = 0` (three dispatches) the global work size is
`n = 100,000,000`, an exact multiple of 128 (781,250 groups).  With
`valuesPerWorkItem = 128` (two dispatches) it is 781,250, and
`781,250 * 128 = n`, but 781,250 is not a multiple of 128: the remainder is 66. -/
theorem program_work_sizes :
    programN = 100000000 ∧
    kernelCalls.map (fun c => (c.kernelName, c.workGroupSize, c.valuesPerWorkItem)) =
      [("sum_global_atomic", 128, 0), ("sum_loop", 128, 128), ("sum_loop_coalesced", 128, 128),
       ("sum_local_mem", 128, 0), ("sum_local_mem_and_tree", 128, 0)] ∧
    globalWorkSize programN 0 = programN ∧ programN % 128 = 0 ∧ programN / 128 = 781250 ∧
    globalWorkSize programN 128 = 781250 ∧ 781250 * 128 = programN ∧
    globalWorkSize programN 128 % 128 = 66 ∧ ¬ (128 ∣ globalWorkSize programN 128) := by
  refine ⟨by decide, by decide, by decide, by decide, by decide, by decide, by decide, by decide,
    by decide⟩

end MainSum
